import Mathlib

/-!
Verification of the `vidium` frame-to-video pipeline
(`src/packages/vidium/src/main.rs`) against its design specification.

The whole program is the single `main` function of `main.rs`.  The browser /
transport plumbing (chromiumoxide, tokio) is out of scope per the spec; the
embedding starts at the output-path derivation (main.rs lines 81-88) and models
the per-frame loop (lines 97-144) plus finalization (line 146) as a pure
function from the incoming capture-event list to an event trace and a result.

Rust panics (`unwrap` / `expect`) and the `?` on the acknowledgment send are
modelled as `Except` errors; each error constructor is annotated with the
source line whose panic or early return it models.

External collaborator crates are not part of this repository's sources, so
they are modelled from the spec's interface contracts (each such definition
carries a comment saying so): `video_rs::Time` arithmetic (spec 4.3),
`video_rs::EncoderSettings` (spec 4.4 and the glossary's encoder profile),
the base64/JPEG decoders (spec 4.1, abstracted as function parameters),
`nshare::ToNdarray3` plus `ndarray::permuted_axes` (spec 4.2), and
`std::path::PathBuf::set_extension` (Rust std semantics, spec 6).
-/

namespace Vidium

/-! ### Presentation time

Modelled from the spec: the external `video_rs::Time` value (not in `src/`).
Spec 3 defines a PresentationPosition as a monotonically non-decreasing
duration; spec 4.3 and 4.4 require it to be an integer tick count quantized to
a rational time base, with alignment rounding in one consistent direction
(round to nearest here).  `Time::zero()` uses the 1/90000 media time base and
`Duration -> Time` conversion enters at nanosecond granularity. -/
structure Time where
  ticks : Nat
  den : Nat
deriving DecidableEq, Repr

/-- `Time::zero()` (main.rs line 95). -/
def Time.zero : Time := ⟨0, 90000⟩

/-- `Duration -> Time` conversion used by `delta.into()` (main.rs line 125);
the duration is an integer number of nanoseconds. -/
def Time.fromNanos (ns : Nat) : Time := ⟨ns, 1000000000⟩

/-- Rescale `t` ticks of base `1/dFrom` into base `1/dTo`, rounding to
nearest (one fixed rounding direction, per spec 4.3). -/
def rescaleTicks (t dFrom dTo : Nat) : Nat := (t * dTo + dFrom / 2) / dFrom

/-- `position.aligned_with(&delta.into()).add()` (main.rs line 125): the
right-hand operand is rescaled into the left operand's time base and the tick
counts are added; the result keeps the left operand's base. -/
def Time.alignAdd (pos delta : Time) : Time :=
  ⟨pos.ticks + rescaleTicks delta.ticks delta.den pos.den, pos.den⟩

/-- Value-level comparison of two presentation positions:
`a.ticks / a.den ≤ b.ticks / b.den` cleared of denominators. -/
def Time.posLe (a b : Time) : Prop := a.ticks * b.den ≤ b.ticks * a.den

instance (a b : Time) : Decidable (Time.posLe a b) :=
  inferInstanceAs (Decidable (a.ticks * b.den ≤ b.ticks * a.den))

/-! ### Decoded images and the pixel-layout conversion -/

/-- A decoded 8-bit RGB image, the result of
`image::load_from_memory_with_format(..)` followed by `.to_rgb8()`
(main.rs lines 106-107).  `pixel x y c` is the value of channel `c` of the
pixel at column `x`, row `y`. -/
structure RgbImage where
  width : Nat
  height : Nat
  pixel : Nat → Nat → Fin 3 → Nat

/-- A three-dimensional array of pixel data (`ndarray::Array3`): three
dimensions plus a lookup function. -/
structure Array3 where
  d0 : Nat
  d1 : Nat
  d2 : Nat
  get3 : Nat → Nat → Nat → Nat

/-- Modelled from the spec (external `nshare` crate, spec 4.2):
`ToNdarray3::into_ndarray3` (main.rs line 112) lays an RGB image out in
channel-major order, shape `(channels, height, width)`. -/
def intoNdarray3 (img : RgbImage) : Array3 :=
  ⟨3, img.height, img.width,
    fun c y x => if h : c < 3 then img.pixel x y ⟨c, h⟩ else 0⟩

/-- Modelled from the spec (external `ndarray` crate, spec 4.2):
`permuted_axes([1, 2, 0])` (main.rs line 113).  Axis `i` of the result is
axis `[1, 2, 0][i]` of the source, so the result has shape `(d1, d2, d0)` and
`result[(i, j, k)] = source[(k, i, j)]`. -/
def permutedAxes120 (a : Array3) : Array3 :=
  ⟨a.d1, a.d2, a.d0, fun i j k => a.get3 k i j⟩

/-! ### Encoder settings -/

/-- Modelled from the spec: the external `video_rs::EncoderSettings` encoder
profile, glossary: the fixed width/height/pixel-format/codec tuple an output
stream is committed to at open time. -/
structure EncoderSettings where
  width : Nat
  height : Nat
  realtime : Bool
  pixelFormat : String
  codec : String
deriving DecidableEq, Repr

/-- `EncoderSettings::for_h264_yuv420p(width, height, realtime)`
(main.rs line 91). -/
def EncoderSettings.forH264Yuv420p (w h : Nat) (rt : Bool) : EncoderSettings :=
  ⟨w, h, rt, "yuv420p", "h264"⟩

/-! ### Output destination derivation (main.rs lines 81-88) -/

/-- Helper for `setExtension`: given the reversed character list of a file
name, return the reversed characters strictly before the last `.` of the
name, or `none` if the name has no `.` at all. -/
def stemRev : List Char → Option (List Char)
  | [] => none
  | c :: rest => if c = '.' then some rest else stemRev rest

/-- Modelled from the spec (Rust `std::path::PathBuf::set_extension`,
main.rs line 85, on a single-component relative path such as a host name):
if the file name already has an extension, i.e. a `.` that is not its first
character, the part after the last `.` is replaced by `ext`; otherwise
`.ext` is appended.  An empty path is left unchanged. -/
def setExtension (name ext : String) : String :=
  match name.data with
  | [] => name
  | _ :: _ =>
    match stemRev name.data.reverse with
    | some (c :: cs) => String.mk ((c :: cs).reverse ++ ('.' :: ext.data))
    | _ => String.mk (name.data ++ ('.' :: ext.data))

/-- Whether a file name has an extension in the Rust `std::path` sense:
a `.` that is not the first character of the name. -/
def hasExtension (s : String) : Bool :=
  match stemRev s.data.reverse with
  | some (_ :: _) => true
  | _ => false

/-- The parsed command-line arguments of the `Encode` subcommand
(main.rs lines 11-28).  `urlHost` is `args.url.host_str()`: `some` host for
URLs with a host component, `none` for URLs without one (e.g. `data:`). -/
structure Args where
  urlHost : Option String
  width : Nat
  height : Nat
  headless : Bool
  output : Option String
deriving DecidableEq, Repr

/-- Output destination (main.rs lines 81-88): the `--output` override when
given, otherwise the URL host name with its extension set to `mp4`; `none`
models the `args.url.host_str().unwrap()` panic when the URL has no host. -/
def destination (args : Args) : Option String :=
  match args.output with
  | some p => some p
  | none =>
    match args.urlHost with
    | some h => some (setExtension h "mp4")
    | none => none

/-! ### Capture events, external collaborators, errors, trace events -/

/-- One screencast capture event (`EventScreencastFrame`, spec 3
CaptureEvent).  `data` is the base64 text payload; `metaTimestamp` is
`item.metadata.timestamp` converted to integer nanoseconds, i.e. the value of
`Duration::from_nanos((t * 1e9) as u64)` at main.rs lines 119-121 (the
float-to-integer conversion is weakly monotone and is not modelled further);
`none` models an absent timestamp.  `sessionId` is the session token.
`ackOk` records whether the transport accepts the acknowledgment send for
this frame (the `?` at main.rs line 143). -/
structure Frame where
  data : String
  metaTimestamp : Option Nat
  sessionId : Nat
  ackOk : Bool
deriving DecidableEq, Repr

/-- Behaviour of the external collaborators, abstracted as functions
(spec 2: Frame Decoder, Video Encoder Sink are external crates not in
`src/`).  `base64Decode` is `base64::...::STANDARD.decode` (line 99),
`jpegDecode` is `image::load_from_memory_with_format(.., Jpeg)` composed with
`to_rgb8()` (lines 106-107, `none` on malformed payload), `encOk` is whether
`encoder.encode` accepts a frame of the given dimensions at the given
position (line 131), `openOk` whether `Encoder::new` succeeds (line 92),
`finishOk` whether `encoder.finish()` succeeds (line 146). -/
structure Externals where
  base64Decode : String → Option (List Nat)
  jpegDecode : List Nat → Option RgbImage
  encOk : Nat × Nat × Nat → Time → Bool
  openOk : Bool
  finishOk : Bool

/-- The ways a run can fail.  Each constructor models one `unwrap`/`expect`
panic or `?` early return of `main.rs`. -/
inductive RunError where
  /-- `args.url.host_str().unwrap()` panic, line 84. -/
  | hostPanic
  /-- `Encoder::new(..).expect(..)` panic, line 92. -/
  | openError
  /-- base64 `decode(..).unwrap()` panic, line 101. -/
  | base64Panic
  /-- `image::load_from_memory_with_format(..).unwrap()` panic, line 106;
  the spec's `DecodeError` class (spec 7). -/
  | decodeError
  /-- `item.metadata.timestamp.as_ref().unwrap()` panic, line 120. -/
  | timestampPanic
  /-- the `ts - *prev` `Duration` subtraction underflow panic, line 124;
  the spec's `ClockError` class (spec 7 and 9): a non-monotonic capture
  timestamp makes the pipeline fail loudly. -/
  | clockError
  /-- `encoder.encode(..).expect(..)` panic, line 133; the spec's
  `EncodeError` class. -/
  | encodeError
  /-- the `?` on the acknowledgment send, line 143; the spec's
  `TransportError` class. -/
  | ackError
  /-- `encoder.finish().expect(..)` panic, line 146. -/
  | finishError
deriving DecidableEq, Repr

/-- Observable events of a run, in order: opening the encoder with its
settings (line 92), encoding one frame of given dimensions at a presentation
position (line 131), acknowledging a session token (lines 137-143),
finalizing the encoder (line 146). -/
inductive Ev where
  | openEnc (dest : String) (settings : EncoderSettings)
  | encode (dim : Nat × Nat × Nat) (pos : Time)
  | ack (sessionId : Nat)
  | finish
deriving DecidableEq, Repr

/-- The state carried across loop iterations (spec 3 PipelineClock):
`prev_duration` and `position` of main.rs lines 94-95, with the previous
capture timestamp kept in nanoseconds. -/
structure LoopState where
  prevNs : Option Nat
  position : Time
deriving DecidableEq, Repr

/-! ### The presentation clock (main.rs lines 119-128) -/

/-- The clock update of main.rs lines 123-126: on the first frame the
position is emitted unchanged; afterwards the delta to the previous capture
timestamp is added (aligned to the position's time base).  `.error .clockError`
models the `Duration` subtraction panic when the timestamp went backwards. -/
def clockStep (st : LoopState) (ts : Nat) : Except RunError Time :=
  match st.prevNs with
  | none => .ok st.position
  | some p =>
    if ts < p then .error .clockError
    else .ok (st.position.alignAdd (Time.fromNanos (ts - p)))

/-- The value `clockStep` returns when it does not fail (using truncated
subtraction, which agrees with the checked subtraction whenever the
timestamps did not go backwards). -/
def clockVal (prev : Option Nat) (pos : Time) (ts : Nat) : Time :=
  match prev with
  | none => pos
  | some p => pos.alignAdd (Time.fromNanos (ts - p))

/-! ### One loop iteration (main.rs lines 97-144) -/

/-- One iteration of the frame loop: base64 decode (line 99), JPEG decode and
RGB conversion (lines 106-107), layout permutation (lines 112-113), timestamp
unwrap and clock update (lines 119-128), encode (line 131), acknowledgment
send (lines 137-143).  Returns the events this iteration emitted and either
the updated loop state or the error that aborted the run. -/
def processFrame (ext : Externals) (st : LoopState) (f : Frame) :
    List Ev × Except RunError LoopState :=
  match ext.base64Decode f.data with
  | none => ([], .error .base64Panic)
  | some buffer =>
    match ext.jpegDecode buffer with
    | none => ([], .error .decodeError)
    | some image =>
      let nd := permutedAxes120 (intoNdarray3 image)
      let dim := (nd.d0, nd.d1, nd.d2)
      match f.metaTimestamp with
      | none => ([], .error .timestampPanic)
      | some ts =>
        match clockStep st ts with
        | .error e => ([], .error e)
        | .ok pos =>
          if ext.encOk dim pos then
            if f.ackOk then
              ([.encode dim pos, .ack f.sessionId], .ok ⟨some ts, pos⟩)
            else ([.encode dim pos], .error .ackError)
          else ([], .error .encodeError)

/-- The driving loop (main.rs lines 97-144): process capture events in
order until the stream ends or an iteration fails. -/
def runLoop (ext : Externals) : LoopState → List Frame → List Ev × Except RunError Unit
  | _, [] => ([], .ok ())
  | st, f :: rest =>
    match processFrame ext st f with
    | (evs, .error e) => (evs, .error e)
    | (evs, .ok st') =>
      let r := runLoop ext st' rest
      (evs ++ r.1, r.2)

/-- The pipeline portion of `main` (main.rs lines 81-146): derive the output
destination, open the encoder with the fixed profile
`for_h264_yuv420p(1600, 1200, true)`, drive the frame loop, and finalize the
encoder when the loop ends normally. -/
def vidiumMain (ext : Externals) (args : Args) (frames : List Frame) :
    List Ev × Except RunError Unit :=
  match destination args with
  | none => ([], .error .hostPanic)
  | some dest =>
    let settings := EncoderSettings.forH264Yuv420p 1600 1200 true
    if ext.openOk then
      let r := runLoop ext ⟨none, Time.zero⟩ frames
      match r.2 with
      | .error e => (Ev.openEnc dest settings :: r.1, .error e)
      | .ok _ =>
        (Ev.openEnc dest settings :: r.1 ++ [Ev.finish],
          if ext.finishOk then .ok () else .error .finishError)
    else ([Ev.openEnc dest settings], .error .openError)

/-! ### Trace observations -/

/-- The presentation position of an encode event. -/
def evPos : Ev → Option Time
  | .encode _ p => some p
  | _ => none

/-- The session token of an acknowledgment event. -/
def evAck : Ev → Option Nat
  | .ack t => some t
  | _ => none

/-- Whether an event is the encoder finalize operation. -/
def isFinish : Ev → Bool
  | .finish => true
  | _ => false

/-- Whether an event is the encoder open operation. -/
def isOpen : Ev → Bool
  | .openEnc _ _ => true
  | _ => false

/-- Whether an event is a per-frame event (encode or acknowledgment). -/
def isFrameEv : Ev → Bool
  | .encode _ _ => true
  | .ack _ => true
  | _ => false

/-- The presentation positions passed to the encoder, in order. -/
def encodePositions (evs : List Ev) : List Time := evs.filterMap evPos

/-- The session tokens acknowledged to the transport, in order. -/
def ackTokens (evs : List Ev) : List Nat := evs.filterMap evAck

/-- How many times the encoder finalize operation was invoked. -/
def countFinish (evs : List Ev) : Nat := evs.countP (fun e => isFinish e)

/-- How many times the encoder was opened. -/
def countOpen (evs : List Ev) : Nat := evs.countP (fun e => isOpen e)

/-- The per-frame events of a trace, with open/finish events dropped. -/
def frameEvs (evs : List Ev) : List Ev := evs.filter (fun e => isFrameEv e)

/-- The positions the clock would emit for the given capture timestamps,
starting from a given previous-timestamp/current-position state (the pure
unrolling of `clockStep` along a stream). -/
def posScan (prev : Option Nat) (pos : Time) : List Nat → List Time
  | [] => []
  | ts :: rest => clockVal prev pos ts :: posScan (some ts) (clockVal prev pos ts) rest

/-- Checks the ack-per-frame discipline of a per-frame event trace against a
token list: the trace is one `encode` immediately followed by one `ack`
carrying that frame's token, for each token in order, possibly ending with a
single unacknowledged `encode` (a frame whose acknowledgment send failed). -/
def ackShape : List Ev → List Nat → Bool
  | [], [] => true
  | [Ev.encode _ _], [] => true
  | Ev.encode _ _ :: Ev.ack t :: rest, tok :: toks => t == tok && ackShape rest toks
  | _, _ => false

/-- The external decode steps succeed on this frame's payload: the base64
decode (main.rs line 99) yields a buffer on which the JPEG decode
(main.rs line 106) yields an image. -/
def decodesOk (ext : Externals) (f : Frame) : Prop :=
  ∃ b, ext.base64Decode f.data = some b ∧ ∃ img, ext.jpegDecode b = some img

/-- A frame on which no external collaborator fails: both decodes succeed and
the transport accepts the acknowledgment. -/
def benignFrame (ext : Externals) (f : Frame) : Prop :=
  decodesOk ext f ∧ f.ackOk = true

/-! ### Concrete instances used to exercise the model on closed runs -/

/-- A concrete one-pixel decoded image. -/
def imgB : RgbImage := ⟨1, 1, fun _ _ _ => 0⟩

/-- Concrete external collaborators for which every step succeeds. -/
def extB : Externals :=
  ⟨fun _ => some [], fun _ => some imgB, fun _ _ => true, true, true⟩

/-- Concrete external collaborators whose base64 decoder maps the payload
"ok" to an empty buffer and anything else to a nonempty one, and whose JPEG
decoder rejects every nonempty buffer (a malformed image payload). -/
def extC : Externals :=
  ⟨fun s => some (if s = "ok" then [] else [0]),
    fun b => if b.isEmpty then some imgB else none,
    fun _ _ => true, true, true⟩

/-- Concrete arguments with an `--output` override. -/
def argsOut : Args := ⟨some "example.com", 800, 600, false, some "out.mp4"⟩

/-- Concrete arguments with no override and host `example.com`. -/
def argsHost : Args := ⟨some "example.com", 800, 600, false, none⟩

/-- Concrete arguments with no override and host `localhost`. -/
def argsLH : Args := ⟨some "localhost", 800, 600, false, none⟩

/-! ### Basic facts about presentation-time arithmetic -/

lemma Time.posLe_refl (a : Time) : a.posLe a := Nat.le_refl _

lemma alignAdd_posLe (pos x : Time) : pos.posLe (pos.alignAdd x) :=
  Nat.mul_le_mul (Nat.le_add_right _ _) (Nat.le_refl _)

lemma alignAdd_fromNanos_zero (pos : Time) : pos.alignAdd (Time.fromNanos 0) = pos := by
  unfold Time.alignAdd Time.fromNanos rescaleTicks
  norm_num

/-! ### Facts about the pure clock unrolling `posScan` -/

lemma posScan_length (tss : List Nat) :
    ∀ prev pos, (posScan prev pos tss).length = tss.length := by
  induction tss with
  | nil => intro prev pos; rfl
  | cons t rest ih => intro prev pos; simp [posScan, ih]

lemma posScan_chain_cons (tss : List Nat) :
    ∀ prev pos, List.Chain' Time.posLe (pos :: posScan prev pos tss) := by
  induction tss with
  | nil => intro prev pos; simp [posScan]
  | cons t rest ih =>
    intro prev pos
    rw [posScan, List.chain'_cons]
    refine ⟨?_, ih (some t) (clockVal prev pos t)⟩
    cases prev with
    | none => exact Time.posLe_refl pos
    | some p => exact alignAdd_posLe pos _

lemma posScan_chain (tss : List Nat) (prev : Option Nat) (pos : Time) :
    List.Chain' Time.posLe (posScan prev pos tss) :=
  (posScan_chain_cons tss prev pos).tail

lemma posScan_eq_adj (tss : List Nat) :
    ∀ prev pos i, tss[i]? = tss[i + 1]? →
      (posScan prev pos tss)[i]? = (posScan prev pos tss)[i + 1]? := by
  induction tss with
  | nil => intro prev pos i h; simp [posScan]
  | cons t rest ih =>
    intro prev pos i h
    match i with
    | 0 =>
      cases rest with
      | nil => simp at h
      | cons r rest' =>
        simp only [List.getElem?_cons_zero, List.getElem?_cons_succ] at h
        obtain rfl : t = r := by simpa using h
        simp [posScan, clockVal, Nat.sub_self, alignAdd_fromNanos_zero]
    | Nat.succ j =>
      simp only [List.getElem?_cons_succ] at h
      simp only [posScan, List.getElem?_cons_succ]
      exact ih (some t) (clockVal prev pos t) j h

/-! ### Facts about the clock step and one loop iteration -/

lemma clockStep_error (st : LoopState) (ts : Nat) (e : RunError)
    (h : clockStep st ts = .error e) : e = RunError.clockError := by
  obtain ⟨prev, pos⟩ := st
  cases prev with
  | none => simp [clockStep] at h
  | some p =>
    simp only [clockStep] at h
    split at h
    · cases h; rfl
    · cases h

lemma clockStep_ok (st : LoopState) (ts : Nat) (v : Time)
    (h : clockStep st ts = .ok v) : v = clockVal st.prevNs st.position ts := by
  obtain ⟨prev, pos⟩ := st
  cases prev with
  | none =>
    simp only [clockStep] at h
    cases h; rfl
  | some p =>
    simp only [clockStep] at h
    split at h
    · cases h
    · cases h; rfl

lemma clockStep_no_lt (st : LoopState) (ts : Nat)
    (h : ∀ p, st.prevNs = some p → ¬ ts < p) :
    clockStep st ts = .ok (clockVal st.prevNs st.position ts) := by
  obtain ⟨prev, pos⟩ := st
  cases prev with
  | none => rfl
  | some p => simp [clockStep, clockVal, h p rfl]

/-- Every loop iteration either emits nothing and fails, emits one encode
event and fails on the acknowledgment send, or emits one encode event and
the matching acknowledgment and continues; any emitted position is the value
computed by the presentation clock for this frame's timestamp. -/
lemma processFrame_shape (ext : Externals) (st : LoopState) (f : Frame) :
    (∃ e, processFrame ext st f = ([], .error e) ∧ e ≠ RunError.finishError) ∨
    (∃ d ts, f.metaTimestamp = some ts ∧
      (processFrame ext st f =
          ([Ev.encode d (clockVal st.prevNs st.position ts)], .error .ackError) ∨
        processFrame ext st f =
          ([Ev.encode d (clockVal st.prevNs st.position ts), Ev.ack f.sessionId],
            .ok ⟨some ts, clockVal st.prevNs st.position ts⟩))) := by
  cases hb : ext.base64Decode f.data with
  | none => exact Or.inl ⟨RunError.base64Panic, by simp [processFrame, hb], by simp⟩
  | some buffer =>
    cases hj : ext.jpegDecode buffer with
    | none => exact Or.inl ⟨RunError.decodeError, by simp [processFrame, hb, hj], by simp⟩
    | some image =>
      cases hts : f.metaTimestamp with
      | none =>
        exact Or.inl ⟨RunError.timestampPanic, by simp [processFrame, hb, hj, hts], by simp⟩
      | some ts =>
        cases hcs : clockStep st ts with
        | error e =>
          refine Or.inl ⟨e, by simp [processFrame, hb, hj, hts, hcs], ?_⟩
          rw [clockStep_error st ts e hcs]
          simp
        | ok pos =>
          obtain rfl := clockStep_ok st ts pos hcs
          by_cases he : ext.encOk
              ((permutedAxes120 (intoNdarray3 image)).d0,
               (permutedAxes120 (intoNdarray3 image)).d1,
               (permutedAxes120 (intoNdarray3 image)).d2)
              (clockVal st.prevNs st.position ts) = true
          · by_cases ha : f.ackOk = true
            · exact Or.inr ⟨((permutedAxes120 (intoNdarray3 image)).d0,
                (permutedAxes120 (intoNdarray3 image)).d1,
                (permutedAxes120 (intoNdarray3 image)).d2), ts, rfl,
                Or.inr (by simp [processFrame, hb, hj, hts, hcs, he, ha])⟩
            · exact Or.inr ⟨((permutedAxes120 (intoNdarray3 image)).d0,
                (permutedAxes120 (intoNdarray3 image)).d1,
                (permutedAxes120 (intoNdarray3 image)).d2), ts, rfl,
                Or.inl (by simp [processFrame, hb, hj, hts, hcs, he, ha])⟩
          · exact Or.inl ⟨RunError.encodeError,
              by simp [processFrame, hb, hj, hts, hcs, he], by simp⟩

lemma processFrame_benign (ext : Externals) (st : LoopState) (f : Frame) (ts : Nat)
    (hdec : decodesOk ext f) (hts : f.metaTimestamp = some ts) (hack : f.ackOk = true)
    (henc : ∀ d p, ext.encOk d p = true)
    (hcl : ∀ p, st.prevNs = some p → ¬ ts < p) :
    ∃ d, processFrame ext st f =
      ([Ev.encode d (clockVal st.prevNs st.position ts), Ev.ack f.sessionId],
        .ok ⟨some ts, clockVal st.prevNs st.position ts⟩) := by
  obtain ⟨b, hb, img, hj⟩ := hdec
  exact ⟨((permutedAxes120 (intoNdarray3 img)).d0,
      (permutedAxes120 (intoNdarray3 img)).d1,
      (permutedAxes120 (intoNdarray3 img)).d2),
    by simp [processFrame, hb, hj, hts, clockStep_no_lt st ts hcl, henc, hack]⟩

lemma processFrame_clock_err (ext : Externals) (st : LoopState) (f : Frame)
    (ts p : Nat) (hdec : decodesOk ext f) (hts : f.metaTimestamp = some ts)
    (hp : st.prevNs = some p) (hlt : ts < p) :
    processFrame ext st f = ([], .error .clockError) := by
  obtain ⟨b, hb, img, hj⟩ := hdec
  simp [processFrame, hb, hj, hts, clockStep, hp, hlt]

lemma processFrame_decode_err (ext : Externals) (st : LoopState) (f : Frame)
    (b : List Nat) (hb : ext.base64Decode f.data = some b)
    (hj : ext.jpegDecode b = none) :
    processFrame ext st f = ([], .error .decodeError) := by
  simp [processFrame, hb, hj]

/-! ### Facts about the driving loop -/

lemma runLoop_frame_events (ext : Externals) :
    ∀ (frames : List Frame) (st : LoopState) (e : Ev),
      e ∈ (runLoop ext st frames).1 → isFrameEv e = true := by
  intro frames
  induction frames with
  | nil => intro st e h; simp [runLoop] at h
  | cons f rest ih =>
    intro st e h
    rcases processFrame_shape ext st f with ⟨e', hpf, _⟩ | ⟨d, ts, hts, hpf | hpf⟩
    · simp [runLoop, hpf] at h
    · simp [runLoop, hpf] at h
      simp [h, isFrameEv]
    · simp only [runLoop, hpf, List.cons_append, List.nil_append] at h
      simp only [List.mem_cons] at h
      rcases h with rfl | rfl | h
      · rfl
      · rfl
      · exact ih _ e h

lemma countFinish_runLoop (ext : Externals) (frames : List Frame) (st : LoopState) :
    countFinish (runLoop ext st frames).1 = 0 := by
  apply List.countP_eq_zero.mpr
  intro e he
  have h := runLoop_frame_events ext frames st e he
  cases e <;> simp_all [isFrameEv, isFinish]

lemma countOpen_runLoop (ext : Externals) (frames : List Frame) (st : LoopState) :
    countOpen (runLoop ext st frames).1 = 0 := by
  apply List.countP_eq_zero.mpr
  intro e he
  have h := runLoop_frame_events ext frames st e he
  cases e <;> simp_all [isFrameEv, isOpen]

lemma frameEvs_runLoop (ext : Externals) (frames : List Frame) (st : LoopState) :
    frameEvs (runLoop ext st frames).1 = (runLoop ext st frames).1 := by
  apply List.filter_eq_self.mpr
  intro e he
  simpa using runLoop_frame_events ext frames st e he

lemma runLoop_error_ne_finish (ext : Externals) :
    ∀ (frames : List Frame) (st : LoopState) (e : RunError),
      (runLoop ext st frames).2 = .error e → e ≠ RunError.finishError := by
  intro frames
  induction frames with
  | nil => intro st e h; simp [runLoop] at h
  | cons f rest ih =>
    intro st e h
    rcases processFrame_shape ext st f with ⟨e', hpf, hne⟩ | ⟨d, ts, hts, hpf | hpf⟩
    · simp [runLoop, hpf] at h
      exact h ▸ hne
    · simp [runLoop, hpf] at h
      subst h
      simp
    · simp only [runLoop, hpf] at h
      exact ih _ e h

/-- In every run, the emitted presentation positions are an initial segment
of the positions the pure clock unrolling computes for the stream's
timestamps. -/
lemma runLoop_positions_init (ext : Externals) :
    ∀ (frames : List Frame) (tss : List Nat) (st : LoopState),
      frames.map Frame.metaTimestamp = tss.map some →
      ∃ t, encodePositions (runLoop ext st frames).1 ++ t =
        posScan st.prevNs st.position tss := by
  intro frames
  induction frames with
  | nil =>
    intro tss st hts
    have h : tss = [] := by cases tss <;> simp_all
    subst h
    exact ⟨[], by simp [runLoop, posScan, encodePositions]⟩
  | cons f rest ih =>
    intro tss st hts
    cases tss with
    | nil => simp at hts
    | cons ts0 tss' =>
      simp only [List.map_cons, List.cons.injEq] at hts
      obtain ⟨hts0, htsr⟩ := hts
      rcases processFrame_shape ext st f with ⟨e', hpf, _⟩ | ⟨d, ts, htsf, hpf | hpf⟩
      · exact ⟨posScan st.prevNs st.position (ts0 :: tss'),
          by simp [runLoop, hpf, encodePositions]⟩
      · obtain rfl : ts = ts0 := by rw [htsf] at hts0; exact Option.some.inj hts0
        refine ⟨posScan (some ts) (clockVal st.prevNs st.position ts) tss', ?_⟩
        simp [runLoop, hpf, encodePositions, evPos, posScan]
      · obtain rfl : ts = ts0 := by rw [htsf] at hts0; exact Option.some.inj hts0
        obtain ⟨t, ht⟩ := ih tss' ⟨some ts, clockVal st.prevNs st.position ts⟩ htsr
        refine ⟨t, ?_⟩
        simp only [runLoop, hpf, List.cons_append, List.nil_append]
        simp only [encodePositions, List.filterMap_cons, evPos, posScan] at ht ⊢
        simpa using ht

/-- Every run's per-frame trace has the ack-per-frame shape for the tokens of
the first `k` frames, where `k` is the number of fully processed frames, and
a normally completed loop processed every frame. -/
lemma runLoop_ackShape (ext : Externals) :
    ∀ (frames : List Frame) (st : LoopState),
      ∃ k, k ≤ frames.length ∧
        ackShape (runLoop ext st frames).1
          ((frames.take k).map Frame.sessionId) = true ∧
        ((runLoop ext st frames).2 = .ok () → k = frames.length) := by
  intro frames
  induction frames with
  | nil => intro st; exact ⟨0, by simp [runLoop, ackShape]⟩
  | cons f rest ih =>
    intro st
    rcases processFrame_shape ext st f with ⟨e', hpf, _⟩ | ⟨d, ts, hts, hpf | hpf⟩
    · refine ⟨0, by simp, by simp [runLoop, hpf, ackShape], ?_⟩
      intro h
      simp [runLoop, hpf] at h
    · refine ⟨0, by simp, by simp [runLoop, hpf, ackShape], ?_⟩
      intro h
      simp [runLoop, hpf] at h
    · obtain ⟨k, hk, hshape, hok⟩ := ih ⟨some ts, clockVal st.prevNs st.position ts⟩
      refine ⟨k + 1, by simpa using hk, ?_, ?_⟩
      · simp only [runLoop, hpf, List.cons_append, List.nil_append, List.take_succ_cons,
          List.map_cons, ackShape]
        simpa using hshape
      · intro h
        simp only [runLoop, hpf] at h
        simpa using hok h

/-- The first position a run ever passes to the encoder is the loop's
starting position (the clock does not advance on the first frame). -/
lemma runLoop_head_position (ext : Externals) (frames : List Frame)
    (st : LoopState) (hprev : st.prevNs = none) :
    (encodePositions (runLoop ext st frames).1).head? = none ∨
    (encodePositions (runLoop ext st frames).1).head? = some st.position := by
  cases frames with
  | nil => exact Or.inl (by simp [runLoop, encodePositions])
  | cons f rest =>
    rcases processFrame_shape ext st f with ⟨e', hpf, _⟩ | ⟨d, ts, hts, hpf | hpf⟩
    · exact Or.inl (by simp [runLoop, hpf, encodePositions])
    · refine Or.inr ?_
      simp [runLoop, hpf, encodePositions, evPos, hprev, clockVal]
    · refine Or.inr ?_
      simp [runLoop, hpf, encodePositions, evPos, hprev, clockVal]

/-- Processing a fully benign stream segment with non-decreasing timestamps
succeeds frame by frame: the run on `good ++ tail` first emits one
encode/ack pair per frame of `good` (with the clock-scanned positions) and
then continues with `tail` from a state whose previous-timestamp component is
the last timestamp of `good`. -/
lemma runLoop_benign_init (ext : Externals) (henc : ∀ d p, ext.encOk d p = true) :
    ∀ (good : List Frame) (gts : List Nat) (st : LoopState) (tail : List Frame),
      good.map Frame.metaTimestamp = gts.map some →
      (∀ f ∈ good, benignFrame ext f) →
      List.Chain' (fun a b => a ≤ b) gts →
      (∀ p, st.prevNs = some p → ∀ t0 ∈ gts.head?, p ≤ t0) →
      ∃ evs stf,
        runLoop ext st (good ++ tail) =
          (evs ++ (runLoop ext stf tail).1, (runLoop ext stf tail).2) ∧
        ackTokens evs = good.map Frame.sessionId ∧
        encodePositions evs = posScan st.prevNs st.position gts ∧
        ((gts = [] ∧ stf = st) ∨
          ∃ lt, gts.getLast? = some lt ∧ stf.prevNs = some lt) := by
  intro good
  induction good with
  | nil =>
    intro gts st tail hmap hben hchain hcompat
    have h : gts = [] := by cases gts <;> simp_all
    subst h
    exact ⟨[], st, by simp, by simp [ackTokens], by simp [encodePositions, posScan],
      Or.inl ⟨rfl, rfl⟩⟩
  | cons f good' ih =>
    intro gts st tail hmap hben hchain hcompat
    cases gts with
    | nil => simp at hmap
    | cons t gts' =>
      simp only [List.map_cons, List.cons.injEq] at hmap
      obtain ⟨hts, hmap'⟩ := hmap
      obtain ⟨hdec, hack⟩ := hben f (by simp)
      have hcl : ∀ p, st.prevNs = some p → ¬ t < p := by
        intro p hp
        have := hcompat p hp t (by simp)
        omega
      obtain ⟨d, hpf⟩ := processFrame_benign ext st f t hdec hts hack henc hcl
      have hben' : ∀ g ∈ good', benignFrame ext g := fun g hg => hben g (by simp [hg])
      have hchain' : List.Chain' (fun a b => a ≤ b) gts' := (List.chain'_cons'.mp hchain).2
      have hcompat' : ∀ p,
          (⟨some t, clockVal st.prevNs st.position t⟩ : LoopState).prevNs = some p →
          ∀ t0 ∈ gts'.head?, p ≤ t0 := by
        intro p hp t0 ht0
        obtain rfl : t = p := Option.some.inj hp
        exact (List.chain'_cons'.mp hchain).1 t0 ht0
      obtain ⟨evs', stf, hrun, hackk, hpos, hlast⟩ :=
        ih gts' ⟨some t, clockVal st.prevNs st.position t⟩ tail hmap' hben'
          hchain' hcompat'
      refine ⟨Ev.encode d (clockVal st.prevNs st.position t) ::
          Ev.ack f.sessionId :: evs', stf, ?_, ?_, ?_, ?_⟩
      · simp only [List.cons_append, runLoop, hpf, List.append_eq]
        rw [hrun]
        simp
      · simp [ackTokens, evAck, List.filterMap_cons] at hackk ⊢
        exact hackk
      · simp only [encodePositions, List.filterMap_cons, evPos, posScan] at hpos ⊢
        simpa using hpos
      · rcases hlast with ⟨hg, hstf⟩ | ⟨lt, hlt, hstf⟩
        · subst hg
          exact Or.inr ⟨t, by simp, by rw [hstf]⟩
        · refine Or.inr ⟨lt, ?_, hstf⟩
          cases gts' with
          | nil => simp at hlt
          | cons u gts'' => simpa [List.getLast?_cons_cons] using hlt

/-- On a nonempty file name without an extension, `setExtension` appends
`.ext` to the name. -/
lemma setExtension_append (name ext : String) (hne : name.data ≠ [])
    (hnoext : hasExtension name = false) :
    (setExtension name ext).data = name.data ++ ('.' :: ext.data) := by
  unfold setExtension
  split
  · next heq => exact absurd heq hne
  · next c cs heq =>
    split
    · next c' cs' heq2 =>
      exfalso
      simp only [hasExtension, heq2] at hnoext
      cases hnoext
    · next => rfl

/-- The four possible shapes of a full run: missing host (nothing happens),
encoder open failure, loop abort with a loop error, or a normally completed
loop followed by finalization. -/
lemma vidiumMain_shape (ext : Externals) (args : Args) (frames : List Frame) :
    (destination args = none ∧ vidiumMain ext args frames = ([], .error .hostPanic)) ∨
    (∃ dest, destination args = some dest ∧
      vidiumMain ext args frames =
        ([Ev.openEnc dest (EncoderSettings.forH264Yuv420p 1600 1200 true)],
          .error .openError)) ∨
    (∃ dest e, destination args = some dest ∧ e ≠ RunError.finishError ∧
      (runLoop ext ⟨none, Time.zero⟩ frames).2 = .error e ∧
      vidiumMain ext args frames =
        (Ev.openEnc dest (EncoderSettings.forH264Yuv420p 1600 1200 true) ::
          (runLoop ext ⟨none, Time.zero⟩ frames).1, .error e)) ∨
    (∃ dest, destination args = some dest ∧
      (runLoop ext ⟨none, Time.zero⟩ frames).2 = .ok () ∧
      vidiumMain ext args frames =
        (Ev.openEnc dest (EncoderSettings.forH264Yuv420p 1600 1200 true) ::
          (runLoop ext ⟨none, Time.zero⟩ frames).1 ++ [Ev.finish],
          if ext.finishOk then .ok () else .error .finishError)) := by
  cases hd : destination args with
  | none => exact Or.inl ⟨rfl, by simp [vidiumMain, hd]⟩
  | some dest =>
    by_cases ho : ext.openOk = true
    · cases hr : (runLoop ext ⟨none, Time.zero⟩ frames).2 with
      | error e =>
        exact Or.inr (Or.inr (Or.inl ⟨dest, e, rfl,
          runLoop_error_ne_finish ext frames ⟨none, Time.zero⟩ e hr, rfl,
          by simp [vidiumMain, hd, ho, hr]⟩))
      | ok u =>
        cases u
        exact Or.inr (Or.inr (Or.inr ⟨dest, rfl, rfl,
          by simp [vidiumMain, hd, ho, hr]⟩))
    · exact Or.inr (Or.inl ⟨dest, rfl, by simp [vidiumMain, hd, ho]⟩)

/-! ### The claims -/

/-- Claim C7: the pixel layout conversion is a pure permutation of axes: the
converted frame has shape `(height, width, 3)`, its total element count
equals the source array's element count (width × height × channels
preserved), and every entry is the corresponding source entry under the axis
relabelling — the converter never resizes, crops, or rescales. -/
theorem c7_layout_permutation (img : RgbImage) :
    (permutedAxes120 (intoNdarray3 img)).d0 = img.height ∧
    (permutedAxes120 (intoNdarray3 img)).d1 = img.width ∧
    (permutedAxes120 (intoNdarray3 img)).d2 = 3 ∧
    (permutedAxes120 (intoNdarray3 img)).d0 * (permutedAxes120 (intoNdarray3 img)).d1 *
        (permutedAxes120 (intoNdarray3 img)).d2 =
      (intoNdarray3 img).d0 * (intoNdarray3 img).d1 * (intoNdarray3 img).d2 ∧
    (∀ y x c, (permutedAxes120 (intoNdarray3 img)).get3 y x c =
      (intoNdarray3 img).get3 c y x) ∧
    ∀ y x (c : Fin 3),
      (permutedAxes120 (intoNdarray3 img)).get3 y x c.val = img.pixel x y c := by
  refine ⟨rfl, rfl, rfl, by simp only [permutedAxes120, intoNdarray3]; ring,
    fun y x c => rfl, fun y x c => ?_⟩
  simp [permutedAxes120, intoNdarray3, c.isLt]

/-- Claim C3: the first frame of any stream is encoded at presentation
position zero regardless of its capture timestamp (the first position a run
ever passes to the encoder, if any, is `Time.zero`), and the clock does not
advance the position on a frame when no previous timestamp is recorded. -/
theorem c3_first_frame_zero (ext : Externals) (args : Args) (frames : List Frame) :
    ((encodePositions (vidiumMain ext args frames).1).head? = none ∨
      (encodePositions (vidiumMain ext args frames).1).head? = some Time.zero) ∧
    ∀ pos ts, clockStep ⟨none, pos⟩ ts = .ok pos := by
  constructor
  · rcases vidiumMain_shape ext args frames with
      ⟨_, h⟩ | ⟨dest, _, h⟩ | ⟨dest, e, _, _, _, h⟩ | ⟨dest, _, _, h⟩
    · rw [h]
      exact Or.inl (by simp [encodePositions])
    · rw [h]
      exact Or.inl (by simp [encodePositions, evPos])
    · rw [h]
      have hh := runLoop_head_position ext frames ⟨none, Time.zero⟩ rfl
      simpa [encodePositions, evPos] using hh
    · rw [h]
      have hh := runLoop_head_position ext frames ⟨none, Time.zero⟩ rfl
      simpa [encodePositions, evPos, List.filterMap_append] using hh
  · intro pos ts
    rfl

/-- Claim C10: when no output override is given and the target URL has no
host component, the run fails with the host `unwrap` panic before the
encoder is opened and before any frame is processed: the trace is empty. -/
theorem c10_missing_host_panics (ext : Externals) (frames : List Frame)
    (w h : Nat) (hl : Bool) :
    vidiumMain ext ⟨none, w, h, hl, none⟩ frames = ([], .error .hostPanic) := rfl

/-- Claim C10 witness: the panic on a concrete hostless invocation. -/
theorem c10_witness :
    vidiumMain extB ⟨none, 800, 600, false, none⟩ [] = ([], .error .hostPanic) :=
  c10_missing_host_panics extB [] 800 600 false

/-- Claim C9 counterexample: for host `example.com` with no override, the
derived destination is `example.mp4` — `set_extension` replaces the host's
final dot-component — not `example.com.mp4`, which appending the video
extension to the host name would give. -/
theorem c9_counterexample :
    destination argsHost = some "example.mp4" ∧
    destination argsHost ≠ some ("example.com" ++ ".mp4") := by
  constructor
  · rfl
  · decide

/-- Claim C9 (amended): when an output override is given it is used
unchanged; when no override is given, the destination is the host name with
its extension set to `mp4` in the `Path::set_extension` sense — the `.mp4`
suffix is appended only when the host name has no extension (no dot past its
first character); a host with an extension has that extension replaced. -/
theorem c9_destination_amended (args : Args) :
    (∀ p, args.output = some p → destination args = some p) ∧
    (∀ h, args.output = none → args.urlHost = some h →
      destination args = some (setExtension h "mp4") ∧
      (h.data ≠ [] → hasExtension h = false →
        (setExtension h "mp4").data = h.data ++ ('.' :: "mp4".data))) := by
  constructor
  · intro p hp
    simp [destination, hp]
  · intro h hout hhost
    refine ⟨by simp [destination, hout, hhost], fun hne hnoext => ?_⟩
    exact setExtension_append h "mp4" hne hnoext

/-- Claim C9 witness: the amended statement applied to the hosts
`localhost` (no extension: appended) and the override case. -/
theorem c9_witness :
    destination argsLH = some (setExtension "localhost" "mp4") ∧
    destination argsOut = some "out.mp4" :=
  ⟨((c9_destination_amended argsLH).2 "localhost" rfl rfl).1,
    (c9_destination_amended argsOut).1 "out.mp4" rfl⟩

/-- Claim C2: for capture events with non-decreasing timestamps, the
presentation positions passed to the encoder are non-decreasing, and two
adjacent frames with equal capture timestamps receive equal presentation
positions. -/
theorem c2_monotone_positions (ext : Externals) (args : Args)
    (frames : List Frame) (tss : List Nat)
    (hts : frames.map Frame.metaTimestamp = tss.map some)
    (_hmono : List.Chain' (fun a b => a ≤ b) tss) :
    List.Chain' Time.posLe (encodePositions (vidiumMain ext args frames).1) ∧
    ∀ i, i + 1 < (encodePositions (vidiumMain ext args frames).1).length →
      tss[i]? = tss[i + 1]? →
      (encodePositions (vidiumMain ext args frames).1)[i]? =
        (encodePositions (vidiumMain ext args frames).1)[i + 1]? := by
  have key : ∃ t, encodePositions (vidiumMain ext args frames).1 ++ t =
      posScan none Time.zero tss := by
    rcases vidiumMain_shape ext args frames with
      ⟨_, h⟩ | ⟨dest, _, h⟩ | ⟨dest, e, _, _, _, h⟩ | ⟨dest, _, _, h⟩
    · rw [h]
      exact ⟨posScan none Time.zero tss, by simp [encodePositions]⟩
    · rw [h]
      exact ⟨posScan none Time.zero tss, by simp [encodePositions, evPos]⟩
    · obtain ⟨t, ht⟩ := runLoop_positions_init ext frames tss ⟨none, Time.zero⟩ hts
      rw [h]
      exact ⟨t, by simpa [encodePositions, evPos] using ht⟩
    · obtain ⟨t, ht⟩ := runLoop_positions_init ext frames tss ⟨none, Time.zero⟩ hts
      rw [h]
      exact ⟨t, by simpa [encodePositions, evPos, List.filterMap_append] using ht⟩
  obtain ⟨t, ht⟩ := key
  constructor
  · have hchain := posScan_chain tss none Time.zero
    rw [← ht] at hchain
    exact (List.chain'_append.mp hchain).1
  · intro i hlen heq
    have hlt1 : i < (encodePositions (vidiumMain ext args frames).1).length := by omega
    have e1 : (encodePositions (vidiumMain ext args frames).1)[i]? =
        (posScan none Time.zero tss)[i]? := by
      rw [← ht, List.getElem?_append]
      simp [hlt1]
    have e2 : (encodePositions (vidiumMain ext args frames).1)[i + 1]? =
        (posScan none Time.zero tss)[i + 1]? := by
      rw [← ht, List.getElem?_append]
      simp [hlen]
    rw [e1, e2]
    exact posScan_eq_adj tss none Time.zero i heq

/-- Claim C2 witness: a concrete two-frame run with equal timestamps. -/
theorem c2_witness :
    List.Chain' Time.posLe (encodePositions (vidiumMain extB argsOut
      [⟨"a", some 7, 1, true⟩, ⟨"b", some 7, 2, true⟩]).1) ∧
    ∀ i, i + 1 < (encodePositions (vidiumMain extB argsOut
        [⟨"a", some 7, 1, true⟩, ⟨"b", some 7, 2, true⟩]).1).length →
      ([7, 7] : List Nat)[i]? = [7, 7][i + 1]? →
      (encodePositions (vidiumMain extB argsOut
        [⟨"a", some 7, 1, true⟩, ⟨"b", some 7, 2, true⟩]).1)[i]? =
        (encodePositions (vidiumMain extB argsOut
          [⟨"a", some 7, 1, true⟩, ⟨"b", some 7, 2, true⟩]).1)[i + 1]? :=
  c2_monotone_positions extB argsOut
    [⟨"a", some 7, 1, true⟩, ⟨"b", some 7, 2, true⟩] [7, 7] rfl
    (by simp [List.chain'_cons, List.chain'_singleton])

/-- Claim C1: in a stream whose next frame carries a capture timestamp
strictly below the previous frame's, the run fails with the clock error (the
`Duration` subtraction panic, the spec's `ClockError`) while processing that
frame: the run's result is the clock error, the offending frame contributes
no encoded position, and the positions that were emitted are
non-decreasing — no position below the previous one is ever produced. -/
theorem c1_negative_delta_clock_error (ext : Externals) (args : Args)
    (good : List Frame) (gts : List Nat) (bad : Frame) (rest : List Frame)
    (dest : String) (lt bt : Nat)
    (hdest : destination args = some dest) (hopen : ext.openOk = true)
    (henc : ∀ d p, ext.encOk d p = true)
    (hmap : good.map Frame.metaTimestamp = gts.map some)
    (hben : ∀ f ∈ good, benignFrame ext f)
    (hchain : List.Chain' (fun a b => a ≤ b) gts)
    (hbaddec : decodesOk ext bad)
    (hbadts : bad.metaTimestamp = some bt)
    (hlast : gts.getLast? = some lt)
    (hlt : bt < lt) :
    (vidiumMain ext args (good ++ bad :: rest)).2 = .error RunError.clockError ∧
    (encodePositions (vidiumMain ext args (good ++ bad :: rest)).1).length =
      good.length ∧
    List.Chain' Time.posLe
      (encodePositions (vidiumMain ext args (good ++ bad :: rest)).1) := by
  obtain ⟨evs, stf, hrun, hacks, hpos, hstf⟩ :=
    runLoop_benign_init ext henc good gts ⟨none, Time.zero⟩ (bad :: rest) hmap hben
      hchain (by simp)
  rcases hstf with ⟨hg, _⟩ | ⟨lt', hlt', hprev⟩
  · subst hg
    simp at hlast
  · obtain rfl : lt' = lt := by rw [hlt'] at hlast; exact Option.some.inj hlast
    have hbadpf := processFrame_clock_err ext stf bad bt lt' hbaddec hbadts hprev hlt
    have hloop : runLoop ext stf (bad :: rest) = ([], .error .clockError) := by
      simp [runLoop, hbadpf]
    rw [hloop] at hrun
    have htr : vidiumMain ext args (good ++ bad :: rest) =
        (Ev.openEnc dest (EncoderSettings.forH264Yuv420p 1600 1200 true) :: evs,
          .error .clockError) := by
      simp [vidiumMain, hdest, hopen, hrun]
    rw [htr]
    have hopenP : encodePositions
        (Ev.openEnc dest (EncoderSettings.forH264Yuv420p 1600 1200 true) :: evs) =
        encodePositions evs := by
      simp [encodePositions, evPos]
    have hlen : gts.length = good.length := by
      have h2 := congrArg List.length hmap
      simpa using h2.symm
    refine ⟨rfl, ?_, ?_⟩
    · rw [hopenP, hpos, posScan_length]
      exact hlen
    · rw [hopenP, hpos]
      exact posScan_chain gts _ _

/-- Claim C1 witness: the spec's example scenario, timestamps
0 s, 0.033 s, 0.020 s in nanoseconds. -/
theorem c1_witness :
    (vidiumMain extB argsOut
      ([⟨"a", some 0, 1, true⟩, ⟨"b", some 33000000, 2, true⟩] ++
        (⟨"c", some 20000000, 3, true⟩ : Frame) :: [])).2 =
      .error RunError.clockError ∧
    (encodePositions (vidiumMain extB argsOut
      ([⟨"a", some 0, 1, true⟩, ⟨"b", some 33000000, 2, true⟩] ++
        (⟨"c", some 20000000, 3, true⟩ : Frame) :: [])).1).length = 2 ∧
    List.Chain' Time.posLe (encodePositions (vidiumMain extB argsOut
      ([⟨"a", some 0, 1, true⟩, ⟨"b", some 33000000, 2, true⟩] ++
        (⟨"c", some 20000000, 3, true⟩ : Frame) :: [])).1) :=
  c1_negative_delta_clock_error extB argsOut
    [⟨"a", some 0, 1, true⟩, ⟨"b", some 33000000, 2, true⟩] [0, 33000000]
    ⟨"c", some 20000000, 3, true⟩ [] "out.mp4" 33000000 20000000
    rfl rfl (fun d p => rfl) rfl
    (by intro f hf; refine ⟨⟨[], rfl, imgB, rfl⟩, ?_⟩; fin_cases hf <;> rfl)
    (by simp [List.chain'_cons, List.chain'_singleton]) ⟨[], rfl, imgB, rfl⟩
    rfl rfl (by decide)

/-- Claim C8: a frame whose image payload is not a valid JPEG aborts the
pipeline with the decode error: the run's result is the decode error, and no
later frame is processed — exactly the frames before it are acknowledged and
encoded. -/
theorem c8_decode_fatal (ext : Externals) (args : Args)
    (good : List Frame) (gts : List Nat) (bad : Frame) (rest : List Frame)
    (dest : String) (b : List Nat)
    (hdest : destination args = some dest) (hopen : ext.openOk = true)
    (henc : ∀ d p, ext.encOk d p = true)
    (hmap : good.map Frame.metaTimestamp = gts.map some)
    (hben : ∀ f ∈ good, benignFrame ext f)
    (hchain : List.Chain' (fun a b => a ≤ b) gts)
    (hb : ext.base64Decode bad.data = some b)
    (hj : ext.jpegDecode b = none) :
    (vidiumMain ext args (good ++ bad :: rest)).2 = .error RunError.decodeError ∧
    ackTokens (vidiumMain ext args (good ++ bad :: rest)).1 =
      good.map Frame.sessionId ∧
    (encodePositions (vidiumMain ext args (good ++ bad :: rest)).1).length =
      good.length := by
  obtain ⟨evs, stf, hrun, hacks, hpos, _⟩ :=
    runLoop_benign_init ext henc good gts ⟨none, Time.zero⟩ (bad :: rest) hmap hben
      hchain (by simp)
  have hbadpf := processFrame_decode_err ext stf bad b hb hj
  have hloop : runLoop ext stf (bad :: rest) = ([], .error .decodeError) := by
    simp [runLoop, hbadpf]
  rw [hloop] at hrun
  have htr : vidiumMain ext args (good ++ bad :: rest) =
      (Ev.openEnc dest (EncoderSettings.forH264Yuv420p 1600 1200 true) :: evs,
        .error .decodeError) := by
    simp [vidiumMain, hdest, hopen, hrun]
  rw [htr]
  have hlen : gts.length = good.length := by
    have h2 := congrArg List.length hmap
    simpa using h2.symm
  refine ⟨rfl, ?_, ?_⟩
  · simpa [ackTokens, evAck] using hacks
  · have hopenP : encodePositions
        (Ev.openEnc dest (EncoderSettings.forH264Yuv420p 1600 1200 true) :: evs) =
        encodePositions evs := by
      simp [encodePositions, evPos]
    rw [hopenP, hpos, posScan_length]
    exact hlen

/-- Claim C8 witness: one good frame, then a frame whose payload decodes to
a malformed (nonempty) buffer, then one more frame that is never reached. -/
theorem c8_witness :
    (vidiumMain extC argsOut
      ([⟨"ok", some 0, 1, true⟩] ++
        (⟨"bad", some 5, 2, true⟩ : Frame) :: [⟨"ok", some 9, 3, true⟩])).2 =
      .error RunError.decodeError ∧
    ackTokens (vidiumMain extC argsOut
      ([⟨"ok", some 0, 1, true⟩] ++
        (⟨"bad", some 5, 2, true⟩ : Frame) :: [⟨"ok", some 9, 3, true⟩])).1 = [1] ∧
    (encodePositions (vidiumMain extC argsOut
      ([⟨"ok", some 0, 1, true⟩] ++
        (⟨"bad", some 5, 2, true⟩ : Frame) :: [⟨"ok", some 9, 3, true⟩])).1).length = 1 :=
  c8_decode_fatal extC argsOut [⟨"ok", some 0, 1, true⟩] [0]
    ⟨"bad", some 5, 2, true⟩ [⟨"ok", some 9, 3, true⟩] "out.mp4" [0]
    rfl rfl (fun d p => rfl) rfl
    (by intro f hf; fin_cases hf; exact ⟨⟨[], rfl, imgB, rfl⟩, rfl⟩)
    (List.chain'_singleton 0) rfl rfl

/-- Claim C5: in every run there is a number `k` of successfully processed
frames such that the per-frame trace consists of exactly one encode followed
by one acknowledgment carrying that frame's session token, for the first `k`
frames in order (possibly followed by a single unacknowledged encode), and a
normally completed run processed every frame. -/
theorem c5_ack_per_frame (ext : Externals) (args : Args) (frames : List Frame) :
    ∃ k, k ≤ frames.length ∧
      ackShape (frameEvs (vidiumMain ext args frames).1)
        ((frames.take k).map Frame.sessionId) = true ∧
      ((vidiumMain ext args frames).2 = .ok () → k = frames.length) := by
  rcases vidiumMain_shape ext args frames with
    ⟨_, h⟩ | ⟨dest, _, h⟩ | ⟨dest, e, _, _, _, h⟩ | ⟨dest, _, hr, h⟩
  · refine ⟨0, by simp, ?_, ?_⟩
    · rw [h]; rfl
    · rw [h]; intro hok; simp at hok
  · refine ⟨0, by simp, ?_, ?_⟩
    · rw [h]; rfl
    · rw [h]; intro hok; simp at hok
  · obtain ⟨k, hk, hshape, _⟩ := runLoop_ackShape ext frames ⟨none, Time.zero⟩
    refine ⟨k, hk, ?_, ?_⟩
    · rw [h]
      dsimp only
      have hfe : frameEvs
          (Ev.openEnc dest (EncoderSettings.forH264Yuv420p 1600 1200 true) ::
            (runLoop ext ⟨none, Time.zero⟩ frames).1) =
          (runLoop ext ⟨none, Time.zero⟩ frames).1 := by
        simpa [frameEvs, isFrameEv] using frameEvs_runLoop ext frames ⟨none, Time.zero⟩
      rw [hfe]
      exact hshape
    · rw [h]; intro hok; simp at hok
  · obtain ⟨k, hk, hshape, hok⟩ := runLoop_ackShape ext frames ⟨none, Time.zero⟩
    obtain rfl : k = frames.length := hok hr
    refine ⟨frames.length, Nat.le_refl _, ?_, fun _ => rfl⟩
    rw [h]
    dsimp only
    have hfe : frameEvs
        (Ev.openEnc dest (EncoderSettings.forH264Yuv420p 1600 1200 true) ::
          (runLoop ext ⟨none, Time.zero⟩ frames).1 ++ [Ev.finish]) =
        (runLoop ext ⟨none, Time.zero⟩ frames).1 := by
      simpa [frameEvs, isFrameEv, List.filter_append]
        using frameEvs_runLoop ext frames ⟨none, Time.zero⟩
    rw [hfe]
    exact hshape

/-- Claim C5 witness: a concrete two-frame run. -/
theorem c5_witness :
    ∃ k, k ≤ 2 ∧
      ackShape (frameEvs (vidiumMain extB argsOut
        [⟨"a", some 0, 1, true⟩, ⟨"b", some 4, 2, true⟩]).1)
        (([⟨"a", some 0, 1, true⟩,
          ⟨"b", some 4, 2, true⟩] : List Frame).take k |>.map Frame.sessionId) =
        true ∧
      ((vidiumMain extB argsOut
        [⟨"a", some 0, 1, true⟩, ⟨"b", some 4, 2, true⟩]).2 = .ok () → k = 2) :=
  c5_ack_per_frame extB argsOut [⟨"a", some 0, 1, true⟩, ⟨"b", some 4, 2, true⟩]

/-- Claim C4 counterexample: a run where the first frame is encoded and the
second frame's payload is malformed ends in a fatal decode error without the
finalize operation ever being invoked — refuting finalize-exactly-once on
every exit path with at least one encoded frame. -/
theorem c4_counterexample :
    (vidiumMain extC argsOut
      [⟨"ok", some 0, 1, true⟩, ⟨"bad", some 5, 2, true⟩]).2 =
      .error RunError.decodeError ∧
    1 ≤ (encodePositions (vidiumMain extC argsOut
      [⟨"ok", some 0, 1, true⟩, ⟨"bad", some 5, 2, true⟩]).1).length ∧
    countFinish (vidiumMain extC argsOut
      [⟨"ok", some 0, 1, true⟩, ⟨"bad", some 5, 2, true⟩]).1 = 0 := by
  refine ⟨rfl, ?_, rfl⟩
  decide

/-- Claim C4 (amended): on a normal end-of-stream exit the finalize
operation is invoked exactly once, as the last event after every encode (and
the same holds when finalize itself is what fails); on every fatal-error
exit before finalization — including errors after at least one successful
encode — finalize is not invoked at all. -/
theorem c4_finalize_amended (ext : Externals) (args : Args) (frames : List Frame) :
    ((vidiumMain ext args frames).2 = .ok () →
      ∃ pre, (vidiumMain ext args frames).1 = pre ++ [Ev.finish] ∧
        countFinish pre = 0) ∧
    (∀ e, (vidiumMain ext args frames).2 = .error e → e ≠ RunError.finishError →
      countFinish (vidiumMain ext args frames).1 = 0) ∧
    ((vidiumMain ext args frames).2 = .error RunError.finishError →
      ∃ pre, (vidiumMain ext args frames).1 = pre ++ [Ev.finish] ∧
        countFinish pre = 0) := by
  have h0 := countFinish_runLoop ext frames ⟨none, Time.zero⟩
  rcases vidiumMain_shape ext args frames with
    ⟨_, h⟩ | ⟨dest, _, h⟩ | ⟨dest, e, _, hne, _, h⟩ | ⟨dest, _, _, h⟩
  · rw [h]
    refine ⟨fun hok => by simp at hok, fun e' _ _ => by simp [countFinish],
      fun hfin => by simp at hfin⟩
  · rw [h]
    refine ⟨fun hok => by simp at hok, fun e' _ _ => by simp [countFinish, isFinish],
      fun hfin => by simp at hfin⟩
  · rw [h]
    refine ⟨fun hok => by simp at hok, ?_, ?_⟩
    · intro e' _ _
      simpa [countFinish, List.countP_cons, isFinish] using h0
    · intro hfin
      simp at hfin
      exact absurd hfin hne
  · rw [h]
    have hpre : countFinish
        (Ev.openEnc dest (EncoderSettings.forH264Yuv420p 1600 1200 true) ::
          (runLoop ext ⟨none, Time.zero⟩ frames).1) = 0 := by
      simpa [countFinish, List.countP_cons, isFinish] using h0
    refine ⟨?_, ?_, ?_⟩
    · intro _
      exact ⟨Ev.openEnc dest (EncoderSettings.forH264Yuv420p 1600 1200 true) ::
        (runLoop ext ⟨none, Time.zero⟩ frames).1, by simp, hpre⟩
    · intro e' he' hne'
      dsimp only at he'
      by_cases hf : ext.finishOk = true
      · rw [if_pos hf] at he'
        simp at he'
      · rw [if_neg hf] at he'
        simp at he'
        exact absurd he'.symm hne'
    · intro _
      exact ⟨Ev.openEnc dest (EncoderSettings.forH264Yuv420p 1600 1200 true) ::
        (runLoop ext ⟨none, Time.zero⟩ frames).1, by simp, hpre⟩

/-- Claim C4 witness: on a concrete normally completed one-frame run, the
finalize operation is the single last event. -/
theorem c4_witness :
    ∃ pre, (vidiumMain extB argsOut [⟨"a", some 0, 1, true⟩]).1 =
      pre ++ [Ev.finish] ∧ countFinish pre = 0 :=
  (c4_finalize_amended extB argsOut [⟨"a", some 0, 1, true⟩]).1 rfl

/-- Claim C6: when the run gets as far as deriving a destination, the
encoder is opened exactly once, as the very first event, with the fixed
profile `for_h264_yuv420p(1600, 1200, true)` — for every choice of viewport
size, frame stream, and collaborator behaviour, so the profile is never
derived per-frame from decoded dimensions and is independent of the
configured viewport. -/
theorem c6_fixed_profile (ext : Externals) (args : Args) (frames : List Frame)
    (dest : String) (hdest : destination args = some dest) :
    countOpen (vidiumMain ext args frames).1 = 1 ∧
    (vidiumMain ext args frames).1.head? =
      some (Ev.openEnc dest (EncoderSettings.forH264Yuv420p 1600 1200 true)) ∧
    ∀ d s, Ev.openEnc d s ∈ (vidiumMain ext args frames).1 →
      d = dest ∧ s = EncoderSettings.forH264Yuv420p 1600 1200 true := by
  have h0 := countOpen_runLoop ext frames ⟨none, Time.zero⟩
  have hfev := runLoop_frame_events ext frames ⟨none, Time.zero⟩
  rcases vidiumMain_shape ext args frames with
    ⟨hn, _⟩ | ⟨dest', hd, h⟩ | ⟨dest', e, hd, _, _, h⟩ | ⟨dest', hd, _, h⟩
  · rw [hdest] at hn; cases hn
  · obtain rfl : dest' = dest := by rw [hd] at hdest; exact Option.some.inj hdest
    rw [h]
    refine ⟨by simp [countOpen, isOpen], by simp, ?_⟩
    intro d s hm
    simp at hm
    exact hm
  · obtain rfl : dest' = dest := by rw [hd] at hdest; exact Option.some.inj hdest
    rw [h]
    refine ⟨?_, by simp, ?_⟩
    · simpa [countOpen, List.countP_cons, isOpen] using h0
    · intro d s hm
      dsimp only at hm
      rcases List.mem_cons.mp hm with heq | hm2
      · simpa using heq
      · have hbad := hfev _ hm2
        simp [isFrameEv] at hbad
  · obtain rfl : dest' = dest := by rw [hd] at hdest; exact Option.some.inj hdest
    rw [h]
    refine ⟨?_, by simp, ?_⟩
    · simpa [countOpen, List.countP_cons, List.countP_append, isOpen] using h0
    · intro d s hm
      dsimp only at hm
      rcases List.mem_cons.mp hm with heq | hm2
      · simpa using heq
      · rcases List.mem_append.mp hm2 with hm3 | hm4
        · have hbad := hfev _ hm3
          simp [isFrameEv] at hbad
        · simp at hm4

/-- Claim C6 witness: the open event of a concrete run. -/
theorem c6_witness :
    countOpen (vidiumMain extB argsOut []).1 = 1 ∧
    (vidiumMain extB argsOut []).1.head? =
      some (Ev.openEnc "out.mp4" (EncoderSettings.forH264Yuv420p 1600 1200 true)) ∧
    ∀ d s, Ev.openEnc d s ∈ (vidiumMain extB argsOut []).1 →
      d = "out.mp4" ∧ s = EncoderSettings.forH264Yuv420p 1600 1200 true :=
  c6_fixed_profile extB argsOut [] "out.mp4" rfl

end Vidium
